import Mathlib

/-!
Verification of the blip document model (waveapi/blip.py): the annotation
store's merge/split engine, per-hit range validation, shift propagation of
element and annotation offsets, and text pattern search.

Offsets are Python ints, modelled as Int.  The source's right-remainder
constructions in the annotation add/delete loops are embedded verbatim,
including their argument order.
-/

/-- One annotation record: a key/value pair over a half-open range of the
document content.  Mirrors the class in blip.py holding fields name, value,
start and end (`end` is `end_` here, since `end` is a Lean keyword). -/
structure Ann where
  name : String
  value : String
  start : Int
  end_ : Int
deriving DecidableEq, Repr

/-- The annotation store: an association list from name to the list stored
for that name, mirroring the dict field `_store`. -/
abbrev Store := List (String × List Ann)

/-- Dict lookup: `name in store` and `store[name]` combined. -/
def storeLookup : Store → String → Option (List Ann)
  | [], _ => none
  | (k, v) :: rest, n => if k = n then some v else storeLookup rest n

/-- Dict write `store[name] = l` (replaces the binding, adds it if absent). -/
def storeSet : Store → String → List Ann → Store
  | [], n, l => [(n, l)]
  | (k, v) :: rest, n, l =>
    if k = n then (n, l) :: rest else (k, v) :: storeSet rest n l

/-- Dict delete `del store[name]`. -/
def storeErase (store : Store) (n : String) : Store :=
  store.filter (fun p => p.1 != n)

/-- The loop of `_add_internal`: walks the existing list for the name,
carrying the (possibly widened) new range.  No overlap keeps the entry;
an equal-value overlap widens the new range; a different-value overlap
chops the existing entry, where the source builds the right remainder as
`Annotation(existing.name, existing.value, existing.end, end)` — that
argument order is kept verbatim here. -/
def addLoop (value : String) :
    List Ann → List Ann → Int → Int → List Ann × Int × Int
  | [], acc, s, e => (acc, s, e)
  | existing :: rest, acc, s, e =>
    if s > existing.end_ ∨ e < existing.start then
      addLoop value rest (acc ++ [existing]) s e
    else if existing.value = value then
      addLoop value rest acc (min existing.start s) (max existing.end_ e)
    else
      addLoop value rest
        (acc ++ (if existing.start < s then
            [⟨existing.name, existing.value, existing.start, s⟩] else [])
          ++ (if existing.end_ > e then
            [⟨existing.name, existing.value, existing.end_, e⟩] else []))
        s e

/-- `_add_internal(name, value, start, end)` on the store. -/
def addInternal (store : Store) (name value : String) (start end_ : Int) :
    Store :=
  match storeLookup store name with
  | some l =>
    let r := addLoop value l [] start end_
    storeSet store name (r.1 ++ [⟨name, value, r.2.1, r.2.2⟩])
  | none => storeSet store name [⟨name, value, start, end_⟩]

/-- The loop of `_delete_internal`: keeps non-overlapping entries, drops
strictly contained ones, clips the rest.  The source builds the right
remainder as `Annotation(name, a.value, a.end, end)` — argument order kept
verbatim. -/
def deleteLoop (name : String) : List Ann → Int → Int → List Ann
  | [], _, _ => []
  | a :: rest, s, e =>
    if s > a.end_ ∨ e < a.start then a :: deleteLoop name rest s e
    else if s < a.start ∧ e > a.end_ then deleteLoop name rest s e
    else
      ((if a.start < s then [⟨name, a.value, a.start, s⟩] else [])
        ++ (if a.end_ > e then [⟨name, a.value, a.end_, e⟩] else []))
        ++ deleteLoop name rest s e

/-- `_delete_internal(name, start=0, end=-1)`; `blipLen` stands for
`len(self._blip)`, i.e. the content length.  A negative end argument is
replaced by `blipLen + end` before the loop runs. -/
def deleteInternal (store : Store) (blipLen : Nat) (name : String)
    (start end0 : Int) : Store :=
  match storeLookup store name with
  | none => store
  | some l =>
    let e := if end0 < 0 then (blipLen : Int) + end0 else end0
    let nl := deleteLoop name l start e
    if nl = [] then storeErase store name else storeSet store name nl

/-- The per-annotation `_shift(where, inc)`: each boundary strictly beyond
`w` moves by `inc`; a boundary at exactly `w` stays. -/
def annShift (a : Ann) (w inc : Int) : Ann :=
  { a with
    start := if a.start > w then a.start + inc else a.start,
    end_ := if a.end_ > w then a.end_ + inc else a.end_ }

/-- The store-wide `_shift`: applies `annShift` to every stored record. -/
def annsShift (store : Store) (w inc : Int) : Store :=
  store.map (fun p => (p.1, p.2.map (fun a => annShift a w inc)))

/-- Modelled from the spec: the `Element` value type lives in element.py,
which is not among the sources; per the spec it is a discriminator tag plus
a kind-specific string property map. -/
structure Element where
  type_ : String
  properties : List (String × String)
deriving DecidableEq, Repr

/-- The element-table half of `Blip._shift(where, inc)`: every table entry
with key `idx >= where` is rewritten to key `idx + inc`. -/
def blipShiftElements (els : List (Int × Element)) (w inc : Int) :
    List (Int × Element) :=
  els.map (fun p => (if p.1 ≥ w then p.1 + inc else p.1, p.2))

/-- The per-hit offset normalization at the top of the execute loop: a
negative start gains the length, and — only when start was negative — an
end equal to 0 gains the length too; then a still-negative end gains the
length. -/
def normalizeHit (blipLen : Nat) (start0 end0 : Int) : Int × Int :=
  let L : Int := blipLen
  let s := if start0 < 0 then start0 + L else start0
  let e1 := if start0 < 0 ∧ end0 = 0 then end0 + L else end0
  let e := if e1 < 0 then e1 + L else e1
  (s, e)

/-- The per-hit range validation of the execute loop; `none` models the
raised IndexError, `some` carries the normalized pair the hit proceeds
with. -/
def validateHit (blipLen : Nat) (start0 end0 : Int) : Option (Int × Int) :=
  let p := normalizeHit blipLen start0 end0
  if blipLen = 0 then
    if p.1 ≠ 0 ∨ p.2 ≠ 0 then none else some p
  else if p.1 < 0 ∨ p.2 < 1 ∨ p.1 ≥ (blipLen : Int) ∨ p.2 > (blipLen : Int)
    then none
  else some p

/-- Written from the spec wording of the range-validation claim, not from
the source: negative offsets are normalized by adding the length, with no
further special case. -/
def specNormalize (blipLen : Nat) (x : Int) : Int :=
  if x < 0 then x + (blipLen : Int) else x

/-- The Python exception kinds the execute loop can raise. -/
inductive ExecErr where
  | indexError
  | valueError
  | attributeError
deriving DecidableEq, Repr

/-- The document state a mutation touches: content, element table and
annotation store. -/
structure BlipState where
  content : List Char
  elements : List (Int × Element)
  annotations : Store
deriving DecidableEq, Repr

/-- Python `self._elements.get(start)`: the element at offset `i`, if any. -/
def lookupEl : List (Int × Element) → Int → Option Element
  | [], _ => none
  | (k, v) :: rest, i => if k = i then some v else lookupEl rest i

/-- Overwrite the element-table entry at offset `i`. -/
def setEl : List (Int × Element) → Int → Element → List (Int × Element)
  | [], i, el => [(i, el)]
  | (k, v) :: rest, i, el =>
    if k = i then (i, el) :: rest else (k, v) :: setEl rest i el

/-- One `setattr(el, k, b)` step on the property map: overwrite the key or
add it. -/
def setKey (ps : List (String × String)) (k v : String) :
    List (String × String) :=
  if ps.any (fun p => p.1 == k) then
    ps.map (fun p => if p.1 = k then (k, v) else p)
  else ps ++ [(k, v)]

/-- The `for k, b in next.items(): setattr(el, k, b)` merge loop. -/
def setProps (el : Element) (props : List (String × String)) : Element :=
  { el with
    properties := props.foldl (fun ps p => setKey ps p.1 p.2) el.properties }

/-- One UPDATE_ELEMENT hit of the execute loop.  The source guard
`if not element:` tests the imported module `element`, which is always
truthy, so its `raise ValueError` is unreachable; when no element exists at
`start`, the subsequent `el.type` attribute access on `None` raises
AttributeError.  An error result carries the document state at raise time
(unchanged, since the access happens before any mutation of the hit). -/
def updateElementHit (blip : BlipState) (props : List (String × String))
    (start0 end0 : Int) : Except (ExecErr × BlipState) (BlipState × Element) :=
  match validateHit blip.content.length start0 end0 with
  | none => .error (.indexError, blip)
  | some (s, _) =>
    match lookupEl blip.elements s with
    | none => .error (.attributeError, blip)
    | some el =>
      .ok ({ blip with elements := setEl blip.elements s (setProps el props) },
        ⟨el.type_, props⟩)

/-- Python `content.find(pat, i)` scanning upward from `i`, with explicit
fuel; `none` models the return value -1. -/
def findFromAux (pat s : List Char) : Nat → Nat → Option Nat
  | 0, _ => none
  | fuel + 1, i =>
    if i + pat.length > s.length then none
    else if (s.drop i).take pat.length = pat then some i
    else findFromAux pat s fuel (i + 1)

/-- Python `content.find(pat, i)`. -/
def findFrom (pat s : List Char) (i : Nat) : Option Nat :=
  findFromAux pat s (s.length + 1) i

/-- The string branch of the find generator: yield `(idx, idx + len(pat))`,
stop once `count` reaches `maxres`, rescan from `idx + len(pat)`.  The fuel
bounds the loop; for a nonempty pattern the scan index strictly increases,
so `s.length + 1` steps always suffice. -/
def findAllAux (pat s : List Char) (maxres : Int) :
    Nat → Nat → Int → List (Nat × Nat)
  | 0, _, _ => []
  | fuel + 1, i, count =>
    match findFrom pat s i with
    | none => []
    | some idx =>
      if count + 1 = maxres then [(idx, idx + pat.length)]
      else (idx, idx + pat.length) ::
        findAllAux pat s maxres fuel (idx + pat.length) (count + 1)

/-- All text hits of the find generator for a string pattern. -/
def findHits (pat s : List Char) (maxres : Int) : List (Nat × Nat) :=
  findAllAux pat s maxres (s.length + 1) 0 0

/-- The half-open ranges of two annotations do not overlap. -/
def annDisjoint (x y : Ann) : Prop :=
  min x.end_ y.end_ ≤ max x.start y.start

instance : DecidableRel annDisjoint := fun x y =>
  inferInstanceAs (Decidable (min x.end_ y.end_ ≤ max x.start y.start))

/-- The store invariant stated by the spec: every stored record has
start ≤ end, and for each fixed name no two stored half-open ranges
overlap. -/
def storeInv (store : Store) : Prop :=
  ∀ p ∈ store, (∀ a ∈ p.2, a.start ≤ a.end_) ∧ p.2.Pairwise annDisjoint

instance (store : Store) : Decidable (storeInv store) :=
  inferInstanceAs (Decidable (∀ p ∈ store, _ ∧ _))

/-- Looking up a name just written finds exactly the written list. -/
theorem storeLookup_set_self (store : Store) (n : String) (l : List Ann) :
    storeLookup (storeSet store n l) n = some l := by
  induction store with
  | nil => simp [storeSet, storeLookup]
  | cons p rest ih =>
    obtain ⟨k, v⟩ := p
    by_cases h : k = n
    · simp [storeSet, storeLookup, h]
    · simp [storeSet, storeLookup, h, ih]

/-- Looking up a name just deleted finds nothing. -/
theorem storeLookup_erase_self (store : Store) (n : String) :
    storeLookup (storeErase store n) n = none := by
  induction store with
  | nil => rfl
  | cons p rest ih =>
    obtain ⟨k, v⟩ := p
    by_cases h : k = n
    · simpa [storeErase, List.filter_cons, h] using ih
    · simpa [storeErase, List.filter_cons, h, storeLookup] using ih

/-- Every record produced by the delete loop with removal range starting at
0 covers no offset `p` with `0 ≤ p ≤ e`: kept records lie outside the
range, left remainders end at 0, and right remainders are stored with
reversed bounds, so their half-open coverage is empty. -/
theorem deleteLoop_cover (nm : String) (l : List Ann) (e : Int) :
    ∀ b ∈ deleteLoop nm l 0 e, ∀ p : Int, 0 ≤ p → p ≤ e →
      ¬(b.start ≤ p ∧ p < b.end_) := by
  induction l with
  | nil => simp [deleteLoop]
  | cons a rest ih =>
    intro b hb p hp hpe
    simp only [deleteLoop] at hb
    split at hb
    · rename_i hout
      rcases List.mem_cons.mp hb with hb | hb
      · subst hb
        rcases hout with h | h <;> · intro hc; omega
      · exact ih b hb p hp hpe
    · split at hb
      · exact ih b hb p hp hpe
      · rename_i hout hcont
        rcases List.mem_append.mp hb with hb | hb
        · rcases List.mem_append.mp hb with hb | hb
          · by_cases hl : a.start < 0
            · simp only [if_pos hl, List.mem_singleton] at hb
              subst hb
              intro hc
              simp at hc
              omega
            · simp [if_neg hl] at hb
          · by_cases hr : a.end_ > e
            · simp only [if_pos hr, List.mem_singleton] at hb
              subst hb
              intro hc
              simp at hc
              omega
            · simp [if_neg hr] at hb
        · exact ih b hb p hp hpe

/-- C1 (code bug): adding (n, "b", 4, 6) over a stored (n, "a", 0, 10)
does not leave the claimed right remainder (6, 10); the source constructs
it as (existing.end, end), so the store ends up with the reversed piece
(10, 6). -/
theorem claimC1 :
    addInternal [("n", [⟨"n", "a", 0, 10⟩])] "n" "b" 4 6
      = [("n", [⟨"n", "a", 0, 4⟩, ⟨"n", "a", 10, 6⟩, ⟨"n", "b", 4, 6⟩])] ∧
    addInternal [("n", [⟨"n", "a", 0, 10⟩])] "n" "b" 4 6
      ≠ [("n", [⟨"n", "a", 0, 4⟩, ⟨"n", "a", 6, 10⟩, ⟨"n", "b", 4, 6⟩])] := by
  decide

/-- C2 (code bug): remove(n, 2, 8) on a single stored (n, v, 0, 10) does
not leave the claimed right piece (8, 10); the source constructs it as
(a.end, end), so the store ends up with the reversed piece (10, 8). -/
theorem claimC2 :
    deleteInternal [("n", [⟨"n", "v", 0, 10⟩])] 10 "n" 2 8
      = [("n", [⟨"n", "v", 0, 2⟩, ⟨"n", "v", 10, 8⟩])] ∧
    deleteInternal [("n", [⟨"n", "v", 0, 10⟩])] 10 "n" 2 8
      ≠ [("n", [⟨"n", "v", 0, 2⟩, ⟨"n", "v", 8, 10⟩])] := by
  decide

/-- C3 counterexample: on a document of length 5 holding the single
annotation (n, x, 0, 5), remove with the default end -1 behaves
differently from remove with end = len(document) = 5: the former keeps the
name with the reversed piece (5, 4), the latter deletes the name entirely.
So the effective removal end of a negative end argument is not
len(document). -/
theorem claimC3_counterexample :
    deleteInternal [("n", [⟨"n", "x", 0, 5⟩])] 5 "n" 0 (-1)
        = [("n", [⟨"n", "x", 5, 4⟩])] ∧
    deleteInternal [("n", [⟨"n", "x", 0, 5⟩])] 5 "n" 0 5 = [] ∧
    deleteInternal [("n", [⟨"n", "x", 0, 5⟩])] 5 "n" 0 (-1)
      ≠ deleteInternal [("n", [⟨"n", "x", 0, 5⟩])] 5 "n" 0 5 := by
  decide

/-- C3 as amended: a negative end argument is replaced by
len(document) + end, not len(document); nevertheless remove(n, 0) with the
default end -1 leaves no annotation of name n covering any offset of
[0, len(document)), because every clipped right remainder is stored with
reversed bounds and so has empty half-open coverage. -/
theorem claimC3_amended (store : Store) (len : Nat) (nm : String) :
    (∀ s e : Int, e < 0 → 0 ≤ (len : Int) + e →
      deleteInternal store len nm s e
        = deleteInternal store len nm s ((len : Int) + e)) ∧
    (∀ l, storeLookup (deleteInternal store len nm 0 (-1)) nm = some l →
      ∀ a ∈ l, ∀ p : Int, 0 ≤ p → p < (len : Int) →
        ¬(a.start ≤ p ∧ p < a.end_)) := by
  constructor
  · intro s e he hle
    cases h : storeLookup store nm with
    | none => simp [deleteInternal, h]
    | some l =>
      simp only [deleteInternal, h]
      rw [if_pos he, if_neg (not_lt.mpr hle)]
  · intro l hl a ha p hp hplen
    cases h : storeLookup store nm with
    | none =>
      rw [show deleteInternal store len nm 0 (-1) = store by
            simp [deleteInternal, h], h] at hl
      exact absurd hl (by simp)
    | some l0 =>
      have hred : deleteInternal store len nm 0 (-1)
          = (if deleteLoop nm l0 0 ((len : Int) + (-1)) = []
              then storeErase store nm
              else storeSet store nm (deleteLoop nm l0 0 ((len : Int) + (-1))))
          := by
        simp only [deleteInternal, h]
        norm_num
      rw [hred] at hl
      by_cases hnl : deleteLoop nm l0 0 ((len : Int) + (-1)) = []
      · rw [if_pos hnl, storeLookup_erase_self] at hl
        exact absurd hl (by simp)
      · rw [if_neg hnl, storeLookup_set_self] at hl
        have hmem : a ∈ deleteLoop nm l0 0 ((len : Int) + (-1)) := by
          cases hl; exact ha
        exact deleteLoop_cover nm l0 ((len : Int) + (-1)) a hmem p hp
          (by omega)

/-- C3 amended, witnessed on the counterexample document: remove with the
default end -1 on a length-5 document equals remove with end 5 + (-1). -/
theorem claimC3_amended_witness :
    deleteInternal [("n", [⟨"n", "x", 0, 5⟩])] 5 "n" 0 (-1)
      = deleteInternal [("n", [⟨"n", "x", 0, 5⟩])] 5 "n" 0
          (((5 : Nat) : Int) + (-1)) :=
  (claimC3_amended [("n", [⟨"n", "x", 0, 5⟩])] 5 "n").1 0 (-1)
    (by norm_num) (by norm_num)

/-- C4 (code bug): for every document and every hit that validates to
(s, e) with no element at offset s, the UPDATE_ELEMENT step fails — but
with AttributeError, not a lookup error, because the source guard
`if not element:` tests the imported module and never fires — and the
document state carried out at the raise is the untouched input state. -/
theorem claimC4 (blip : BlipState) (props : List (String × String))
    (s0 e0 s e : Int)
    (hval : validateHit blip.content.length s0 e0 = some (s, e))
    (hel : lookupEl blip.elements s = none) :
    updateElementHit blip props s0 e0
      = Except.error (ExecErr.attributeError, blip) := by
  simp [updateElementHit, hval, hel]

/-- C4 witnessed: on content "abc" with an empty element table, the
UPDATE_ELEMENT hit (0, 1) raises AttributeError and leaves the state
unchanged. -/
theorem claimC4_witness :
    updateElementHit ⟨['a', 'b', 'c'], [], []⟩ [] 0 1
      = Except.error (ExecErr.attributeError, ⟨['a', 'b', 'c'], [], []⟩) :=
  claimC4 ⟨['a', 'b', 'c'], [], []⟩ [] 0 1 0 1 (by decide) rfl

/-- C5 (code bug): the store invariant is not preserved by add: starting
from a store satisfying it (single entry (n, "a", 0, 10)), adding
(n, "b", 4, 6) produces the reversed piece (10, 6), which violates
start ≤ end. -/
theorem claimC5 :
    storeInv [("n", [⟨"n", "a", 0, 10⟩])] ∧
    ¬ storeInv (addInternal [("n", [⟨"n", "a", 0, 10⟩])] "n" "b" 4 6) := by
  decide

/-- C6: shift(where, delta) moves an element at offset idx ≥ where to
idx + delta (an element exactly at the shift point moves), while an
annotation boundary moves by delta only when strictly beyond where (a
boundary exactly at the shift point stays). -/
theorem claimC6 (w inc : Int) (els : List (Int × Element)) (idx : Int)
    (el : Element) (a : Ann) :
    ((idx, el) ∈ els → w ≤ idx →
      (idx + inc, el) ∈ blipShiftElements els w inc) ∧
    (w < a.start → (annShift a w inc).start = a.start + inc) ∧
    (a.start ≤ w → (annShift a w inc).start = a.start) ∧
    (w < a.end_ → (annShift a w inc).end_ = a.end_ + inc) ∧
    (a.end_ ≤ w → (annShift a w inc).end_ = a.end_) := by
  refine ⟨?_, ?_, ?_, ?_, ?_⟩
  · intro hm hw
    refine List.mem_map.mpr ⟨(idx, el), hm, ?_⟩
    simp [if_pos hw]
  · intro h; simp [annShift, if_pos h]
  · intro h; simp [annShift, if_neg (not_lt.mpr h)]
  · intro h; simp [annShift, if_pos h]
  · intro h; simp [annShift, if_neg (not_lt.mpr h)]

/-- C6 witnessed: with where = 2 and delta = 3, the element at offset 2
moves to 5, an annotation start at exactly 2 stays, and an annotation end
at 5 moves to 8. -/
theorem claimC6_witness :
    ((2 : Int) + 3, (⟨"gadget", []⟩ : Element)) ∈
      blipShiftElements [((2 : Int), ⟨"gadget", []⟩)] 2 3 ∧
    (annShift ⟨"n", "v", 2, 5⟩ 2 3).start = 2 ∧
    (annShift ⟨"n", "v", 2, 5⟩ 2 3).end_ = 5 + 3 := by
  have h := claimC6 2 3 [((2 : Int), ⟨"gadget", []⟩)] 2 ⟨"gadget", []⟩
    ⟨"n", "v", 2, 5⟩
  exact ⟨h.1 (by simp) le_rfl, h.2.2.1 le_rfl, h.2.2.2.1 (by norm_num)⟩

/-- C7 counterexample: with content length 3 and the hit (-1, 0), the
claimed rule — normalize each negative offset by adding the length, then
for a non-empty document raise iff the normalized pair fails the bounds
check — predicts a raise (normalized end 0 fails 1 ≤ end), but the source
accepts the hit, because when start is negative an end equal to 0 also
gains the length. -/
theorem claimC7_counterexample :
    ¬((validateHit 3 (-1) 0 = none) ↔
      ¬(0 ≤ specNormalize 3 (-1) ∧ 1 ≤ specNormalize 3 0 ∧
        specNormalize 3 (-1) < (3 : Int) ∧ specNormalize 3 0 ≤ (3 : Int))) := by
  decide

/-- C7 as amended: with the source's normalization — negative start gains
the length, an end equal to 0 gains the length when start was negative,
and a still-negative end gains the length — an empty document accepts
exactly the normalized pair (0, 0), and a non-empty document raises iff
the normalized pair fails 0 ≤ start, 1 ≤ end, start < len, end ≤ len. -/
theorem claimC7_amended (L : Nat) (s0 e0 : Int) :
    (L = 0 → ((validateHit L s0 e0 = none) ↔
      ¬((normalizeHit L s0 e0).1 = 0 ∧ (normalizeHit L s0 e0).2 = 0))) ∧
    (0 < L → ((validateHit L s0 e0 = none) ↔
      ¬(0 ≤ (normalizeHit L s0 e0).1 ∧ 1 ≤ (normalizeHit L s0 e0).2 ∧
        (normalizeHit L s0 e0).1 < (L : Int) ∧
        (normalizeHit L s0 e0).2 ≤ (L : Int)))) := by
  rcases hnp : normalizeHit L s0 e0 with ⟨a, b⟩
  simp only [validateHit, hnp]
  constructor
  · intro hL
    subst hL
    split_ifs <;> simp_all
    tauto
  · intro hL
    rw [if_neg (by omega)]
    split_ifs with hc
    · simp only [eq_self_iff_true, true_iff]
      omega
    · simp only [reduceCtorEq, false_iff, not_not]
      omega

/-- C7 amended, witnessed on the counterexample hit: for length 3 and hit
(-1, 0) the source's validation accepts iff the source-normalized pair
passes the bounds check. -/
theorem claimC7_amended_witness :
    (validateHit 3 (-1) 0 = none) ↔
      ¬(0 ≤ (normalizeHit 3 (-1) 0).1 ∧ 1 ≤ (normalizeHit 3 (-1) 0).2 ∧
        (normalizeHit 3 (-1) 0).1 < (3 : Int) ∧
        (normalizeHit 3 (-1) 0).2 ≤ (3 : Int)) :=
  (claimC7_amended 3 (-1) 0).2 (by norm_num)

/-- An index returned by the bounded scan is at or beyond the scan start. -/
theorem findFromAux_ge (pat s : List Char) :
    ∀ fuel i j, findFromAux pat s fuel i = some j → i ≤ j := by
  intro fuel
  induction fuel with
  | zero => intro i j h; simp [findFromAux] at h
  | succ n ih =>
    intro i j h
    simp only [findFromAux] at h
    split at h
    · exact absurd h (by simp)
    · split at h
      · cases h; exact le_rfl
      · exact le_trans (Nat.le_succ i) (ih (i + 1) j h)

/-- An index returned by `findFrom` is at or beyond the scan start. -/
theorem findFrom_ge (pat s : List Char) (i j : Nat)
    (h : findFrom pat s i = some j) : i ≤ j :=
  findFromAux_ge pat s (s.length + 1) i j h

/-- Every hit produced by the find loop starts at or beyond the current
scan index and spans exactly the pattern length, and consecutive hits do
not overlap: each next hit starts at or beyond the previous hit's end. -/
theorem findAllAux_hits (pat s : List Char) (maxres : Int) :
    ∀ fuel i count,
      (∀ q ∈ findAllAux pat s maxres fuel i count,
        i ≤ q.1 ∧ q.2 = q.1 + pat.length) ∧
      List.Chain' (fun x y : Nat × Nat => x.2 ≤ y.1)
        (findAllAux pat s maxres fuel i count) := by
  intro fuel
  induction fuel with
  | zero => intro i c; simp [findAllAux]
  | succ n ih =>
    intro i c
    simp only [findAllAux]
    cases h : findFrom pat s i with
    | none => simp
    | some idx =>
      have hidx : i ≤ idx := findFrom_ge pat s i idx h
      split_ifs with hc
      · refine ⟨?_, List.chain'_singleton _⟩
        intro q hq
        rw [List.mem_singleton] at hq
        subst hq
        exact ⟨hidx, rfl⟩
      · have ihh := ih (idx + pat.length) (c + 1)
        refine ⟨?_, ?_⟩
        · intro q hq
          rcases List.mem_cons.mp hq with hq | hq
          · subst hq; exact ⟨hidx, rfl⟩
          · have hq2 := ihh.1 q hq
            exact ⟨le_trans hidx (le_trans (Nat.le_add_right _ _) hq2.1),
              hq2.2⟩
        · refine List.chain'_cons'.mpr ⟨?_, ihh.2⟩
          intro b hb
          exact (ihh.1 b (List.mem_of_mem_head? hb)).1

/-- For a non-positive cap the stop test `count == maxres` never fires, so
the cap's value is irrelevant. -/
theorem findAllAux_nonpos (pat s : List Char) (m1 m2 : Int)
    (h1 : m1 ≤ 0) (h2 : m2 ≤ 0) :
    ∀ fuel i c, 0 ≤ c →
      findAllAux pat s m1 fuel i c = findAllAux pat s m2 fuel i c := by
  intro fuel
  induction fuel with
  | zero => intro i c _; rfl
  | succ n ih =>
    intro i c hc
    simp only [findAllAux]
    cases h : findFrom pat s i with
    | none => rfl
    | some idx =>
      dsimp only
      rw [if_neg (show ¬(c + 1 = m1) by omega),
        if_neg (show ¬(c + 1 = m2) by omega),
        ih (idx + pat.length) (c + 1) (by omega)]

/-- C8: text search yields successive non-overlapping occurrences left to
right (each next hit starts at or beyond the previous hit's end), the cap
is irrelevant whenever it is non-positive, and searching for "a" in
"banana" with max_results -1 yields exactly (1,2), (3,4), (5,6). -/
theorem claimC8 :
    findHits ['a'] ['b', 'a', 'n', 'a', 'n', 'a'] (-1)
        = [(1, 2), (3, 4), (5, 6)] ∧
    (∀ (pat s : List Char) (maxres : Int),
      List.Chain' (fun x y : Nat × Nat => x.2 ≤ y.1)
        (findHits pat s maxres)) ∧
    (∀ (pat s : List Char) (m1 m2 : Int), m1 ≤ 0 → m2 ≤ 0 →
      findHits pat s m1 = findHits pat s m2) := by
  refine ⟨by decide, ?_, ?_⟩
  · intro pat s maxres
    exact (findAllAux_hits pat s maxres (s.length + 1) 0 0).2
  · intro pat s m1 m2 h1 h2
    exact findAllAux_nonpos pat s m1 m2 h1 h2 (s.length + 1) 0 0 le_rfl

/-- C8 witnessed: the non-positive caps -1 and 0 give the same hits for
"a" in "banana". -/
theorem claimC8_witness :
    findHits ['a'] ['b', 'a', 'n', 'a', 'n', 'a'] (-1)
      = findHits ['a'] ['b', 'a', 'n', 'a', 'n', 'a'] 0 :=
  claimC8.2.2 ['a'] ['b', 'a', 'n', 'a', 'n', 'a'] (-1) 0 (by norm_num)
    le_rfl

/-- C9: starting from an empty store, adding (n, v, 0, 5) then (n, v, 3, 8)
yields exactly one stored record (n, v, 0, 8), and so does adding them in
the opposite order. -/
theorem claimC9 (n v : String) :
    addInternal (addInternal [] n v 0 5) n v 3 8 = [(n, [⟨n, v, 0, 8⟩])] ∧
    addInternal (addInternal [] n v 3 8) n v 0 5 = [(n, [⟨n, v, 0, 8⟩])] := by
  constructor <;>
    norm_num [addInternal, addLoop, storeLookup, storeSet, min_def, max_def]

/-- C10: same-value records that merely touch are merged: if the store's
entry for n is the single record (n, v, a, b) with a ≤ b ≤ c, adding
(n, v, b, c) replaces it by the single record (n, v, a, c), because the
no-overlap test `start > existing.end or end < existing.start` is strict
and so treats ranges sharing only the endpoint b as overlapping. -/
theorem claimC10 (store : Store) (n v : String) (a b c : Int)
    (hab : a ≤ b) (hbc : b ≤ c)
    (hstore : storeLookup store n = some [⟨n, v, a, b⟩]) :
    addInternal store n v b c = storeSet store n [⟨n, v, a, c⟩] ∧
    storeLookup (addInternal store n v b c) n = some [⟨n, v, a, c⟩] := by
  have hmain : addInternal store n v b c = storeSet store n [⟨n, v, a, c⟩] := by
    simp only [addInternal, hstore]
    rw [show addLoop v [⟨n, v, a, b⟩] [] b c = ([], a, c) by
      simp only [addLoop]
      rw [if_neg (by simp; omega)]
      simp only [if_true]
      rw [min_eq_left hab, max_eq_right hbc]]
    simp
  exact ⟨hmain, by rw [hmain, storeLookup_set_self]⟩

/-- C10 witnessed: adding (k, w, 4, 9) over the single stored (k, w, 1, 4)
yields the single merged record (k, w, 1, 9). -/
theorem claimC10_witness :
    addInternal [("k", [⟨"k", "w", 1, 4⟩])] "k" "w" 4 9
        = storeSet [("k", [⟨"k", "w", 1, 4⟩])] "k" [⟨"k", "w", 1, 9⟩] ∧
    storeLookup (addInternal [("k", [⟨"k", "w", 1, 4⟩])] "k" "w" 4 9) "k"
        = some [⟨"k", "w", 1, 9⟩] :=
  claimC10 [("k", [⟨"k", "w", 1, 4⟩])] "k" "w" 1 4 9 (by norm_num)
    (by norm_num) (by decide)
